import Mathlib

/-!
# Verification of the oblivious-SRP core

A shallow embedding of the oblivious-SRP reference implementation:
the `TypeSRP` big-integer wrapper (backed by jsbn `BigInteger`), the
variadic SHA-256 based hash `H`, the SRP group parameters, and the
`SRPClient` operations `deriveVerifierHash`, `deriveSession` and
`verifySession`.

The SHA-256 compression function itself lives in Node's `crypto`
module, outside this repository; every definition and theorem is
therefore parametric in a `digest : List Nat → List Nat` function
standing for "SHA-256 digest bytes of a byte string".  All the
properties considered here are about argument absorption, byte/hex
conversions and the modular arithmetic, none of which depend on the
compression function.

Machine integers: jsbn `BigInteger` and JavaScript `BigInt` are
arbitrary precision and signed, so values are modelled as `Int`.
JavaScript `%` on `BigInt` is truncated remainder (sign of the
dividend), modelled by `jsRem`; jsbn `BigInteger.mod` returns a value
in `[0, m)` for a positive modulus, which is `Int.emod` (Lean's `%`).
-/

/-- Value of a hex-digit character (`0-9`, `a-f`, `A-F`), as used by
Node `Buffer.from(_, 'hex')` and by `parseInt(_, 16)` on a single pair. -/
def hexDigitVal (c : Char) : Option Nat :=
  let n := c.toNat
  if 48 ≤ n ∧ n ≤ 57 then some (n - 48)
  else if 97 ≤ n ∧ n ≤ 102 then some (n - 87)
  else if 65 ≤ n ∧ n ≤ 70 then some (n - 55)
  else none

/-- jsbn `intAt`: the digit value a character contributes during radix
parsing (`0-9` ↦ 0-9, `a-z`/`A-Z` ↦ 10-35); characters outside these
ranges are skipped by the parser. -/
def intAtVal (c : Char) : Option Nat :=
  let n := c.toNat
  if 48 ≤ n ∧ n ≤ 57 then some (n - 48)
  else if 97 ≤ n ∧ n ≤ 122 then some (n - 87)
  else if 65 ≤ n ∧ n ≤ 90 then some (n - 55)
  else none

/-- jsbn `new BigInteger(s, 16)` magnitude: characters with a digit
value each contribute four bits, others are skipped.  (jsbn packs the
four low bits of each digit value; on genuine hex digits — the domain
of every property below — that is exactly `16 * acc + v`.) -/
def parseHexNat (cs : List Char) : Nat :=
  cs.foldl (fun acc c => match intAtVal c with | some v => 16 * acc + v | none => acc) 0

/-- Lowercase hex character of a digit value, as emitted by jsbn
`toString(16)` and by Node's `digest('hex')`. -/
def hexDigitChar (d : Nat) : Char :=
  if d < 10 then Char.ofNat (48 + d) else Char.ofNat (87 + d)

/-- Fuelled worker for `natHexMin`; the fuel only needs to dominate the
number of hex digits, and `n + 1` always does. -/
def hexMinAux : Nat → Nat → List Char
  | 0, _ => []
  | f + 1, n => if n = 0 then [] else hexMinAux f (n / 16) ++ [hexDigitChar (n % 16)]

/-- jsbn `BigInteger.toString(16)` of a non-negative value: minimal
lowercase hex, and `"0"` for zero. -/
def natHexMin (n : Nat) : List Char :=
  if n = 0 then ['0'] else hexMinAux (n + 1) n

/-- The `pad-start` package: left-pad with `'0'` up to width `w`;
never truncates. -/
def padStartList (cs : List Char) (w : Nat) : List Char :=
  List.replicate (w - cs.length) '0' ++ cs

/-- JavaScript `toLowerCase` restricted to ASCII (enough for hex). -/
def asciiLower (c : Char) : Char :=
  if 65 ≤ c.toNat ∧ c.toNat ≤ 90 then Char.ofNat (c.toNat + 32) else c

/-- Lowercase of a string, character by character. -/
def strLower (s : String) : String := ⟨s.data.map asciiLower⟩

/-- The `TypeSRP` wrapper: a jsbn `BigInteger` value together with the
recorded hex width (`kHexLength`, `null` when absent). -/
structure TypeSRP where
  val : Int
  hexLen : Option Nat
deriving DecidableEq

/-- `TypeSRP.fromHex`: parse as radix-16 jsbn integer, record
`hexLength = input.length`.  The sign is negative exactly when the
first sign-or-digit character of the input is `'-'` (jsbn's `mi` flag,
which a later digit resets while scanning right to left). -/
def TypeSRP.fromHex (input : String) : TypeSRP :=
  let n : Int := Int.ofNat (parseHexNat input.data)
  let neg := (input.data.find? fun c => c = '-' || (intAtVal c).isSome) = some '-'
  ⟨if neg then -n else n, some input.length⟩

/-- `TypeSRP.fromBigInt`: value preserved, `hexLength = null`. -/
def TypeSRP.fromBigInt (v : Int) : TypeSRP := ⟨v, none⟩

/-- `TypeSRP.ZERO`. -/
def TypeSRP.ZERO : TypeSRP := ⟨0, none⟩

/-- `TypeSRP.ONE`. -/
def TypeSRP.ONE : TypeSRP := ⟨1, none⟩

/-- `add`: sum, `hexLength = null`. -/
def TypeSRP.add (a b : TypeSRP) : TypeSRP := ⟨a.val + b.val, none⟩

/-- `multiply`: `fromBigInt(this.toBigInt() * val.toBigInt())`. -/
def TypeSRP.multiply (a b : TypeSRP) : TypeSRP := TypeSRP.fromBigInt (a.val * b.val)

/-- `subtract`: difference, keeps the receiver's `hexLength`. -/
def TypeSRP.subtract (a b : TypeSRP) : TypeSRP := ⟨a.val - b.val, a.hexLen⟩

/-- `divide`: jsbn division truncates toward zero; keeps the
receiver's `hexLength`. -/
def TypeSRP.divide (a b : TypeSRP) : TypeSRP := ⟨Int.tdiv a.val b.val, a.hexLen⟩

/-- `mod`: jsbn `mod` returns a value in `[0, m)` for a positive
modulus (Euclidean remainder), and carries the MODULUS's `hexLength`. -/
def TypeSRP.mod (a m : TypeSRP) : TypeSRP := ⟨a.val % m.val, m.hexLen⟩

/-- Infinite two's-complement bitwise xor on `Int`, as jsbn computes it. -/
def intXor : Int → Int → Int
  | .ofNat m, .ofNat n => .ofNat (m ^^^ n)
  | .ofNat m, .negSucc n => .negSucc (m ^^^ n)
  | .negSucc m, .ofNat n => .negSucc (m ^^^ n)
  | .negSucc m, .negSucc n => .ofNat (m ^^^ n)

/-- `xor`: bitwise xor, keeps the receiver's `hexLength`. -/
def TypeSRP.xor (a b : TypeSRP) : TypeSRP := ⟨intXor a.val b.val, a.hexLen⟩

/-- JavaScript `BigInt` remainder: truncated toward zero, sign of the
dividend. -/
def jsRem (a b : Int) : Int :=
  if a < 0 then -(Int.ofNat (a.natAbs % b.natAbs)) else Int.ofNat (a.natAbs % b.natAbs)

/-- The `while (exp > 0)` loop of `modularExponentiation`, with the
exponent as a `Nat` and explicit fuel (structural recursion; fuel
`e + 1` dominates the number of halvings). -/
def modExpGo (m : Int) : Nat → Nat → Int → Int → Int
  | 0, _, _, result => result
  | f + 1, e, base, result =>
    if e = 0 then result
    else
      modExpGo m f (e / 2) (jsRem (base * base) m)
        (if e % 2 = 1 then jsRem (result * base) m else result)

/-- `TypeSRP.modularExponentiation`: `result = 1; base = base % mod;`
then square-and-multiply.  A non-positive exponent never enters the
loop, so the function returns `1` for it. -/
def modularExponentiation (base exp m : Int) : Int :=
  modExpGo m (exp.toNat + 1) exp.toNat (jsRem base m) 1

/-- `modPow`: exponent and modulus converted to plain integers, the
result wrapped by `fromBigInt` (so `hexLength = null`). -/
def TypeSRP.modPow (a exp m : TypeSRP) : TypeSRP :=
  TypeSRP.fromBigInt (modularExponentiation a.val exp.val m.val)

/-- `toHex`: minimal lowercase hex of the value (with a `'-'` sign for
negatives), left-padded with `'0'` to `hexLength` when that is set. -/
def TypeSRP.toHex (a : TypeSRP) : String :=
  let hx : List Char := if a.val < 0 then '-' :: natHexMin a.val.natAbs else natHexMin a.val.toNat
  match a.hexLen with
  | none => ⟨hx⟩
  | some w => ⟨padStartList hx w⟩

/-- `getHexLength`. -/
def TypeSRP.getHexLength (a : TypeSRP) : Option Nat := a.hexLen

/-- One byte of `toUint8Array`: `parseInt(pair, 16)` followed by the
`Uint8Array` element coercion (`ToUint8`).  `parseInt` reads the
longest sign-plus-hex prefix, yields `NaN` (stored as `0`) when there
is none, and a negative value wraps modulo 256. -/
def pairByte (c1 c2 : Char) : Nat :=
  match hexDigitVal c1 with
  | some v1 =>
    match hexDigitVal c2 with
    | some v2 => 16 * v1 + v2
    | none => v1
  | none =>
    if c1 = '-' then
      match hexDigitVal c2 with
      | some v2 => (256 - v2) % 256
      | none => 0
    else 0

/-- The byte loop of `toUint8Array` over successive two-character
substrings. -/
def pairBytes : List Char → List Nat
  | c1 :: c2 :: rest => pairByte c1 c2 :: pairBytes rest
  | [c] => [(hexDigitVal c).getD 0]
  | [] => []

/-- `toUint8Array`: minimal hex of the value, left-padded with one
`'0'` if of odd length, then decoded pairwise into bytes. -/
def TypeSRP.toUint8Array (a : TypeSRP) : List Nat :=
  let hx : List Char := if a.val < 0 then '-' :: natHexMin a.val.natAbs else natHexMin a.val.toNat
  let hx2 := if hx.length % 2 = 1 then '0' :: hx else hx
  pairBytes hx2

/-- Node `Buffer.from(s, 'hex')`: decode hex pairs, stopping at the
first invalid or incomplete pair — a trailing lone digit is dropped. -/
def bufFromHex : List Char → List Nat
  | c1 :: c2 :: rest =>
    match hexDigitVal c1, hexDigitVal c2 with
    | some v1, some v2 => (16 * v1 + v2) :: bufFromHex rest
    | _, _ => []
  | _ => []

/-- UTF-8 encoding of a code point. -/
def utf8EncodeCp (n : Nat) : List Nat :=
  if n < 128 then [n]
  else if n < 2048 then [192 + n / 64, 128 + n % 64]
  else if n < 65536 then [224 + n / 4096, 128 + n / 64 % 64, 128 + n % 64]
  else [240 + n / 262144, 128 + n / 4096 % 64, 128 + n / 64 % 64, 128 + n % 64]

/-- UTF-8 bytes of a string, as `hash.update(string)` absorbs it. -/
def utf8Bytes (s : String) : List Nat :=
  s.data.foldr (fun c acc => utf8EncodeCp c.toNat ++ acc) []

/-- Two lowercase hex characters of one digest byte. -/
def byteHexChars (b : Nat) : List Char := [hexDigitChar (b / 16 % 16), hexDigitChar (b % 16)]

/-- Node `digest('hex')`: lowercase hex string of the digest bytes. -/
def bytesToHex (bs : List Nat) : String := ⟨bs.foldr (fun b acc => byteHexChars b ++ acc) []⟩

/-- An argument of the variadic `Sha256.hash`: a string, a `TypeSRP`,
or any other JavaScript value (`other`), which the hash rejects. -/
inductive HashArg where
  | str : String → HashArg
  | int : TypeSRP → HashArg
  | other : HashArg
deriving DecidableEq

/-- Error taxonomy of the operations embedded here. -/
inductive SRPError where
  | badArgumentKind
  | invalidServerEphemeral
  | badServerProof
deriving DecidableEq

/-- Whether `Sha256.hash` accepts an argument (string or `TypeSRP`). -/
def argOk : HashArg → Bool
  | .str _ => true
  | .int _ => true
  | .other => false

/-- The bytes `Sha256.hash` absorbs for one argument: UTF-8 bytes of a
string, `Buffer.from(arg.toHex(), 'hex')` of a `TypeSRP`. -/
def absorbBytes : HashArg → List Nat
  | .str s => utf8Bytes s
  | .int v => bufFromHex v.toHex.data
  | .other => []

/-- Concatenated absorbed bytes of an argument list, in order. -/
def absorbAll (args : List HashArg) : List Nat :=
  args.foldr (fun a acc => absorbBytes a ++ acc) []

/-- `Sha256.hash` restricted to absorbable arguments:
`TypeSRP.fromHex(h.digest('hex'))`. -/
def hashVal (digest : List Nat → List Nat) (args : List HashArg) : TypeSRP :=
  TypeSRP.fromHex (bytesToHex (digest (absorbAll args)))

/-- `Sha256.hash` with the dynamic argument-kind check: a `TypeError`
(`badArgumentKind`) as soon as an argument is neither a string nor a
`TypeSRP`. -/
def sha256hash (digest : List Nat → List Nat) (args : List HashArg) : Except SRPError TypeSRP :=
  if args.all argOk then .ok (hashVal digest args) else .error .badArgumentKind

/-- The RFC 5054 3072-bit safe prime of `Params`, whitespace already
removed as by `input.largeSafePrime.replace(/\s+/g, '')`. -/
def largeSafePrimeHex : String :=
  "FFFFFFFFFFFFFFFFC90FDAA22168C234C4C6628B80DC1CD129024E088A67CC74020BBEA63B139B22514A08798E3404DDEF9519B3CD3A431B302B0A6DF25F14374FE1356D6D51C245E485B576625E7EC6F44C42E9A637ED6B0BFF5CB6F406B7EDEE386BFB5A899FA5AE9F24117C4B1FE649286651ECE45B3DC2007CB8A163BF0598DA48361C55D39A69163FA8FD24CF5F83655D23DCA3AD961C62F356208552BB9ED529077096966D670C354E4ABC9804F1746C08CA18217C32905E462E36CE3BE39E772C180E86039B2783A2EC07A28FB5C55DF06F4C52C9DE2BCBF6955817183995497CEA956AE515D2261898FA051015728E5A8AAAC42DAD33170D04507A33A85521ABDF1CBA64ECFB850458DBEF0A8AEA71575D060C7DB3970F85A6E1E4C7ABF5AE8CDB0933D71E8C94E04A25619DCEE3D2261AD2EE6BF12FFA06D98A0864D87602733EC86A64521F2B18177B200CBBE117577A615D6C770988C0BAD946E208E24FA074E5AB3143DB5BFCE0FD108E4B82D120A93AD2CAFFFFFFFFFFFFFFFF"

namespace Params

/-- `N`: the large safe prime, `hexLength = 768`. -/
def N : TypeSRP := TypeSRP.fromHex largeSafePrimeHex

/-- `g`: the generator, parsed from `"05"`. -/
def g : TypeSRP := TypeSRP.fromHex "05"

/-- `k = H(N, g)`: the SRP-6a multiplier. -/
def k (digest : List Nat → List Nat) : TypeSRP := hashVal digest [.int N, .int g]

/-- Hash output width in bytes. -/
def hashOutputBytes : Nat := 32

end Params

/-- The `{ key, proof }` record returned by `SRPClient.deriveSession`. -/
structure ClientSession where
  key : String
  proof : String
deriving DecidableEq

/-- `SRPClient.deriveVerifierHash`: join the hex arguments with no
separator, reparse with `fromHex`, hash, emit hex. -/
def deriveVerifierHash (digest : List Nat → List Nat) (args : List String) : String :=
  (hashVal digest [.int (TypeSRP.fromHex (String.join args))]).toHex

/-- `SRPClient.deriveSession`, transcribed step by step. -/
def deriveSession (digest : List Nat → List Nat)
    (clientSecretEphemeral serverPublicEphemeral salt username verifierHash : String) :
    Except SRPError ClientSession :=
  let a := TypeSRP.fromHex clientSecretEphemeral
  let B := TypeSRP.fromHex serverPublicEphemeral
  let s := TypeSRP.fromHex salt
  let I := username
  let x := TypeSRP.fromHex verifierHash
  if (B.mod Params.N).val = TypeSRP.ZERO.val then .error .invalidServerEphemeral
  else
    let A := Params.g.modPow a Params.N
    let u := hashVal digest [.int A, .int B]
    let S := (((B.add Params.N).subtract
                (((Params.k digest).multiply (Params.g.modPow x Params.N)).mod Params.N)).mod
                Params.N).modPow (a.add (u.multiply x)) Params.N
    let K := hashVal digest [.int S]
    let M := hashVal digest
      [.int ((hashVal digest [.int Params.N]).xor (hashVal digest [.int Params.g])),
       .int (hashVal digest [.str I]), .int s, .int A, .int B, .int K]
    .ok ⟨K.toHex, M.toHex⟩

/-- `SRPClient.verifySession`: recompute `H(A, M, K)` and compare (by
jsbn value equality) with the server's proof. -/
def verifySession (digest : List Nat → List Nat)
    (clientPublicEphemeral : String) (clientSession : ClientSession)
    (serverSessionProof : String) : Except SRPError Unit :=
  let A := TypeSRP.fromHex clientPublicEphemeral
  let M := TypeSRP.fromHex clientSession.proof
  let K := TypeSRP.fromHex clientSession.key
  let expected := hashVal digest [.int A, .int M, .int K]
  let actual := TypeSRP.fromHex serverSessionProof
  if actual.val = expected.val then .ok () else .error .badServerProof

/-! ## Arithmetic lemmas about the embedded primitives -/

theorem jsRem_eq_emod (a m : Int) (ha : 0 ≤ a) (hm : 0 < m) : jsRem a m = a % m := by
  rw [jsRem, if_neg (not_lt.2 ha)]
  have h1 : (a.natAbs : Int) = a := Int.natAbs_of_nonneg ha
  have h2 : (m.natAbs : Int) = m := Int.natAbs_of_nonneg hm.le
  rw [Int.ofNat_eq_natCast, Int.natCast_mod, h1, h2]

theorem intPowEmod (a n : Int) (k : Nat) : (a % n) ^ k % n = a ^ k % n := by
  induction k with
  | zero => simp
  | succ k ih =>
    rw [pow_succ, pow_succ, Int.mul_emod, ih, Int.emod_emod_of_dvd _ dvd_rfl, ← Int.mul_emod]

theorem mulEmodRight (a b n : Int) : a * (b % n) % n = a * b % n := by
  rw [Int.mul_emod a (b % n), Int.emod_emod_of_dvd _ dvd_rfl, ← Int.mul_emod]

theorem jsRem_nonneg (a m : Int) (ha : 0 ≤ a) : 0 ≤ jsRem a m := by
  rw [jsRem, if_neg (not_lt.2 ha)]
  exact Int.ofNat_nonneg _

theorem modExpGo_exp_zero (m : Int) (f : Nat) (b r : Int) : modExpGo m f 0 b r = r := by
  cases f <;> simp [modExpGo]

theorem modExpGo_correct (m : Int) (hm : 0 < m) :
    ∀ f e (b r : Int), e < f → 0 ≤ b → 0 ≤ r → 1 ≤ e →
      modExpGo m f e b r = r * b ^ e % m := by
  intro f
  induction f with
  | zero => intro e b r hef; omega
  | succ f ih =>
    intro e b r hef hb hr he
    rw [modExpGo, if_neg (by omega)]
    have hbb : (0:Int) ≤ b * b := mul_nonneg hb hb
    have hrb : (0:Int) ≤ r * b := mul_nonneg hr hb
    obtain ⟨q, hq⟩ : ∃ q, e / 2 = q := ⟨_, rfl⟩
    rw [hq]
    rcases Nat.lt_or_ge e 2 with h2 | h2
    · have he1 : e = 1 := by omega
      have hq0 : q = 0 := by omega
      subst he1 hq0
      rw [if_pos rfl, modExpGo_exp_zero, jsRem_eq_emod _ _ hrb hm, pow_one]
    · have hdiv : q < f := by omega
      have hdiv1 : 1 ≤ q := by omega
      rw [ih q (jsRem (b * b) m) _ hdiv
            (jsRem_nonneg _ _ hbb)
            (by split <;> [exact jsRem_nonneg _ _ hrb; exact hr]) hdiv1]
      rw [jsRem_eq_emod _ _ hbb hm]
      have hpow : (b * b % m) ^ q % m = (b * b) ^ q % m := intPowEmod _ _ _
      rcases Nat.even_or_odd e with ⟨t, ht⟩ | ⟨t, ht⟩
      · have hmod : ¬ (e % 2 = 1) := by omega
        have he2 : e = 2 * q := by omega
        subst he2
        rw [if_neg hmod, Int.mul_emod, hpow, ← Int.mul_emod, ← pow_two, ← pow_mul]
      · have hmod : e % 2 = 1 := by omega
        have he2 : e = 2 * q + 1 := by omega
        subst he2
        rw [if_pos hmod, jsRem_eq_emod _ _ hrb hm, Int.mul_emod, hpow,
          Int.emod_emod_of_dvd _ dvd_rfl, ← Int.mul_emod, ← pow_two, ← pow_mul]
        have harr : r * b * b ^ (2 * q) = r * b ^ (2 * q + 1) := by ring
        rw [harr]

theorem modularExponentiation_correct (b e m : Int) (hb : 0 ≤ b) (hm : 0 < m)
    (h : 2 ≤ m ∨ 1 ≤ e) : modularExponentiation b e m = b ^ e.toNat % m := by
  rw [modularExponentiation]
  rcases Nat.eq_zero_or_pos e.toNat with h0 | h1
  · rw [h0, modExpGo_exp_zero, pow_zero]
    have hm2 : 2 ≤ m := by
      rcases h with h | h
      · exact h
      · exfalso; omega
    rw [Int.emod_eq_of_lt (by norm_num) (by omega)]
  · rw [modExpGo_correct m hm _ _ _ _ (Nat.lt_succ_self _)
      (jsRem_nonneg _ _ hb) (by norm_num) h1]
    rw [jsRem_eq_emod _ _ hb hm, one_mul, intPowEmod]

set_option maxRecDepth 40000 in
theorem N_val_ge_two : (2:Int) ≤ Params.N.val := by decide

theorem g_val_eq : Params.g.val = 5 := by decide

theorem g_nonneg : (0:Int) ≤ Params.g.val := by rw [g_val_eq]; norm_num

theorem N_pos : (0:Int) < Params.N.val := by have := N_val_ge_two; omega

theorem modPow_eq (a e m : TypeSRP) (hb : 0 ≤ a.val) (hm : 0 < m.val)
    (hd : 2 ≤ m.val ∨ 1 ≤ e.val) :
    a.modPow e m = ⟨a.val ^ e.val.toNat % m.val, none⟩ := by
  unfold TypeSRP.modPow TypeSRP.fromBigInt
  rw [modularExponentiation_correct a.val e.val m.val hb hm hd]

theorem g_modPow_eq (e : TypeSRP) :
    Params.g.modPow e Params.N = ⟨Params.g.val ^ e.val.toNat % Params.N.val, none⟩ :=
  modPow_eq _ _ _ g_nonneg N_pos (Or.inl N_val_ge_two)

theorem emod_modPowN_eq (x : Int) (w : Option Nat) (e : TypeSRP) :
    (TypeSRP.mk (x % Params.N.val) w).modPow e Params.N
      = ⟨(x % Params.N.val) ^ e.val.toNat % Params.N.val, none⟩ := by
  have hNne : Params.N.val ≠ 0 := by have := N_pos; omega
  exact modPow_eq _ _ _ (Int.emod_nonneg x hNne) N_pos (Or.inl N_val_ge_two)

/-! ## C6: `modularExponentiation` / `modPow` -/

/-- C6 (amended): for `b ≥ 0`, `e ≥ 0`, `m ≥ 1`, except at the single
corner `m = 1 ∧ e = 0`, `mod_pow(b, e, m)` equals `b ^ e mod m` and
lies in `[0, m)`; and `modPow` wraps exactly this value with
`hex_width = none`.  (At `m = 1`, `e = 0` the code returns `1`, which
is outside `[0, 1)` — see the counterexample.) -/
theorem claimC6_modPow (b e m : Int) (hb : 0 ≤ b) (_he : 0 ≤ e) (hm : 1 ≤ m)
    (hd : 2 ≤ m ∨ 1 ≤ e) :
    modularExponentiation b e m = b ^ e.toNat % m ∧
    0 ≤ modularExponentiation b e m ∧ modularExponentiation b e m < m ∧
    ∀ w1 w2 w3 : Option Nat,
      TypeSRP.modPow ⟨b, w1⟩ ⟨e, w2⟩ ⟨m, w3⟩ = ⟨b ^ e.toNat % m, none⟩ := by
  have hm0 : (0:Int) < m := by omega
  have h1 : modularExponentiation b e m = b ^ e.toNat % m :=
    modularExponentiation_correct b e m hb hm0 hd
  refine ⟨h1, ?_, ?_, ?_⟩
  · rw [h1]; exact Int.emod_nonneg _ (by omega)
  · rw [h1]; exact Int.emod_lt_of_pos _ hm0
  · intro w1 w2 w3
    unfold TypeSRP.modPow TypeSRP.fromBigInt
    simpa using h1

/-- C6 witness: the theorem applied at `b = 3`, `e = 5`, `m = 7`. -/
theorem claimC6_modPow_witness :
    modularExponentiation 3 5 7 = (3:Int) ^ (5:Int).toNat % 7 ∧
    0 ≤ modularExponentiation 3 5 7 ∧ modularExponentiation 3 5 7 < 7 ∧
    ∀ w1 w2 w3 : Option Nat,
      TypeSRP.modPow ⟨3, w1⟩ ⟨5, w2⟩ ⟨7, w3⟩ = ⟨(3:Int) ^ (5:Int).toNat % 7, none⟩ :=
  claimC6_modPow 3 5 7 (by norm_num) (by norm_num) (by norm_num) (Or.inl (by norm_num))

/-- C6 counterexample to the claim as stated: at `b = 0`, `e = 0`,
`m = 1` the code returns `1`, which does not lie in `[0, 1)` (and
differs from `0^0 mod 1 = 0`). -/
theorem claimC6_counterexample :
    modularExponentiation 0 0 1 = 1 ∧ ¬ modularExponentiation 0 0 1 < 1 := by
  constructor <;> decide

/-! ## C1: `deriveSession` computes the claimed session -/

/-- The session C1 claims `deriveSession` returns, written from the
claim: `A = g^a mod N`, `u = H(A, B)`,
`S = ((B + N − (k·g^x mod N)) mod N)^(a + u·x) mod N`, `K = H(S)`,
`M = H(H(N) xor H(g), H(I), s, A, B, K)`, `key = K.to_hex()`,
`proof = M.to_hex()`.  Hex-string inputs have non-negative values, so
the integer exponents are written with `Int.toNat`. -/
def claimedSession (digest : List Nat → List Nat)
    (aHex BHex saltHex username xHex : String) : ClientSession :=
  let a := (TypeSRP.fromHex aHex).val
  let B := TypeSRP.fromHex BHex
  let s := TypeSRP.fromHex saltHex
  let x := (TypeSRP.fromHex xHex).val
  let Nv := Params.N.val
  let A : TypeSRP := ⟨Params.g.val ^ a.toNat % Nv, none⟩
  let u := hashVal digest [.int A, .int B]
  let S : TypeSRP :=
    ⟨((B.val + Nv - ((Params.k digest).val * Params.g.val ^ x.toNat % Nv)) % Nv)
        ^ (a + u.val * x).toNat % Nv, none⟩
  let K := hashVal digest [.int S]
  let M := hashVal digest
    [.int ((hashVal digest [.int Params.N]).xor (hashVal digest [.int Params.g])),
     .int (hashVal digest [.str username]), .int s, .int A, .int B, .int K]
  ⟨K.toHex, M.toHex⟩

theorem deriveSession_ok_eq (digest : List Nat → List Nat)
    (aHex BHex saltHex username xHex : String)
    (hB : (TypeSRP.fromHex BHex).val % Params.N.val ≠ 0) :
    deriveSession digest aHex BHex saltHex username xHex =
      .ok (claimedSession digest aHex BHex saltHex username xHex) := by
  have hguard : ¬ (((TypeSRP.fromHex BHex).mod Params.N).val = TypeSRP.ZERO.val) := by
    simpa [TypeSRP.mod, TypeSRP.ZERO] using hB
  simp only [deriveSession, claimedSession]
  rw [if_neg hguard]
  simp only [g_modPow_eq, TypeSRP.add, TypeSRP.multiply, TypeSRP.subtract,
    TypeSRP.mod, TypeSRP.fromBigInt, mulEmodRight, emod_modPowN_eq]

/-- C1: for every hex input with `B mod N ≠ 0`, `deriveSession`
succeeds and returns exactly the session the claim describes:
`A = g^a mod N`, `u = H(A, B)`,
`S = ((B + N − (k·g^x mod N)) mod N)^(a + u·x) mod N`, `K = H(S)`,
`M = H(H(N) xor H(g), H(I), s, A, B, K)`, with `key = K.to_hex()` and
`proof = M.to_hex()`. -/
theorem claimC1_deriveSession (digest : List Nat → List Nat)
    (aHex BHex saltHex username xHex : String)
    (hB : (TypeSRP.fromHex BHex).val % Params.N.val ≠ 0) :
    deriveSession digest aHex BHex saltHex username xHex =
      .ok (claimedSession digest aHex BHex saltHex username xHex) :=
  deriveSession_ok_eq digest aHex BHex saltHex username xHex hB

set_option maxRecDepth 40000 in
/-- C1 witness: the theorem applied at concrete hex inputs. -/
theorem claimC1_deriveSession_witness :
    deriveSession (fun _ => []) "02" "03" "01" "user" "01" =
      .ok (claimedSession (fun _ => []) "02" "03" "01" "user" "01") :=
  claimC1_deriveSession (fun _ => []) "02" "03" "01" "user" "01" (by decide)

/-! ## C4: `deriveSession` fails exactly on `B mod N = 0` -/

/-- C4: `deriveSession` fails if and only if `B mod N = 0`, the error
is always `InvalidServerEphemeral`, and on failure no session (key or
proof) is produced; otherwise some session is returned. -/
theorem claimC4_invalidServerEphemeral (digest : List Nat → List Nat)
    (aHex BHex saltHex username xHex : String) (e : SRPError) :
    deriveSession digest aHex BHex saltHex username xHex = .error e ↔
      e = .invalidServerEphemeral ∧ (TypeSRP.fromHex BHex).val % Params.N.val = 0 := by
  constructor
  · intro h
    by_cases hB : (TypeSRP.fromHex BHex).val % Params.N.val = 0
    · refine ⟨?_, hB⟩
      rw [deriveSession] at h
      rw [if_pos (by simpa [TypeSRP.mod, TypeSRP.ZERO] using hB)] at h
      exact (Except.error.inj h).symm
    · rw [deriveSession_ok_eq digest aHex BHex saltHex username xHex hB] at h
      exact absurd h (by simp)
  · rintro ⟨he, hB⟩
    subst he
    rw [deriveSession, if_pos (by simpa [TypeSRP.mod, TypeSRP.ZERO] using hB)]

/-! ## C5: `verifySession` -/

/-- C5: `verifySession` computes `expected = H(A, M, K)` from the
client's public ephemeral and session and fails with `BadServerProof`
exactly when the server proof differs (as a jsbn value) from
`expected`; when they agree it returns without error. -/
theorem claimC5_verifySession (digest : List Nat → List Nat)
    (clientPublicEphemeral : String) (clientSession : ClientSession)
    (serverSessionProof : String) :
    (verifySession digest clientPublicEphemeral clientSession serverSessionProof
        = .error .badServerProof ↔
      (TypeSRP.fromHex serverSessionProof).val ≠
        (hashVal digest [.int (TypeSRP.fromHex clientPublicEphemeral),
          .int (TypeSRP.fromHex clientSession.proof),
          .int (TypeSRP.fromHex clientSession.key)]).val) ∧
    (verifySession digest clientPublicEphemeral clientSession serverSessionProof
        = .ok () ↔
      (TypeSRP.fromHex serverSessionProof).val =
        (hashVal digest [.int (TypeSRP.fromHex clientPublicEphemeral),
          .int (TypeSRP.fromHex clientSession.proof),
          .int (TypeSRP.fromHex clientSession.key)]).val) := by
  rw [verifySession]
  constructor
  · split <;> simp_all
  · split <;> simp_all

/-! ## C3: `deriveVerifierHash` -/

/-- C3 (amended): `deriveVerifierHash` emits
`H(from_hex(concatenation)).to_hex()`, and its output depends only on
the `TypeSRP` parsed from the concatenation (value and recorded
width).  In particular two argument lists whose concatenations parse
alike — even when the concatenated strings differ, e.g. only in
letter case — give the same output, so a reordering that produces a
different concatenation need not change the output. -/
theorem claimC3_deriveVerifierHash (digest : List Nat → List Nat)
    (args1 args2 : List String)
    (h : TypeSRP.fromHex (String.join args1) = TypeSRP.fromHex (String.join args2)) :
    deriveVerifierHash digest args1
        = (hashVal digest [.int (TypeSRP.fromHex (String.join args1))]).toHex ∧
    deriveVerifierHash digest args1 = deriveVerifierHash digest args2 := by
  refine ⟨rfl, ?_⟩
  rw [deriveVerifierHash, deriveVerifierHash, h]

/-- C3 witness: the theorem applied to the argument lists
`["ab", "AB"]` and `["AB", "ab"]`, whose concatenations both parse to
the value `0xabab` with width 4. -/
theorem claimC3_deriveVerifierHash_witness :
    deriveVerifierHash (fun bs => bs) ["ab", "AB"]
        = (hashVal (fun bs => bs) [.int (TypeSRP.fromHex (String.join ["ab", "AB"]))]).toHex ∧
    deriveVerifierHash (fun bs => bs) ["ab", "AB"]
        = deriveVerifierHash (fun bs => bs) ["AB", "ab"] :=
  claimC3_deriveVerifierHash (fun bs => bs) ["ab", "AB"] ["AB", "ab"] (by decide)

/-- C3 counterexample to the claim as stated: reordering `["ab", "AB"]`
to `["AB", "ab"]` produces a different concatenation, yet the output
is unchanged. -/
theorem claimC3_counterexample :
    String.join ["ab", "AB"] ≠ String.join ["AB", "ab"] ∧
    deriveVerifierHash (fun bs => bs) ["ab", "AB"]
      = deriveVerifierHash (fun bs => bs) ["AB", "ab"] := by
  constructor <;> decide

/-! ## C8: `hex_width` propagation of the arithmetic operations -/

/-- C8 (amended): `sub`, `div` and `xor` carry the `hex_width` of the
left-hand operand, `mod` carries the `hex_width` of the MODULUS (not
of the left-hand operand), and `add` and `mul` carry
`hex_width = none`. -/
theorem claimC8_hexWidth (a b m : TypeSRP) :
    (a.subtract b).hexLen = a.hexLen ∧
    (a.divide b).hexLen = a.hexLen ∧
    (a.xor b).hexLen = a.hexLen ∧
    (a.mod m).hexLen = m.hexLen ∧
    (a.add b).hexLen = none ∧
    (a.multiply b).hexLen = none :=
  ⟨rfl, rfl, rfl, rfl, rfl, rfl⟩

/-- C8 counterexample to the claim as stated: `mod` does not carry the
left operand's width — `0xab` (width 2) mod `0x0005` (width 4) has
width 4. -/
theorem claimC8_counterexample :
    ((TypeSRP.fromHex "ab").mod (TypeSRP.fromHex "0005")).hexLen
      ≠ (TypeSRP.fromHex "ab").hexLen := by
  decide

/-! ## C10: odd-length hex truncation makes `H` collide -/

theorem absorbAll_cons (a : HashArg) (l : List HashArg) :
    absorbAll (a :: l) = absorbBytes a ++ absorbAll l := rfl

theorem absorbAll_append (l1 l2 : List HashArg) :
    absorbAll (l1 ++ l2) = absorbAll l1 ++ absorbAll l2 := by
  induction l1 with
  | nil => rfl
  | cons a l ih =>
    rw [List.cons_append, absorbAll_cons, absorbAll_cons, ih, List.append_assoc]

/-- C10: the distinct values `0xabc` and `0xabd` (no recorded width)
have odd-length hex encodings `"abc"` and `"abd"`; `Buffer.from(_,
'hex')` drops the trailing lone digit, so both are absorbed as the
single byte `0xab`, and every call of `H` differing only in that
argument returns the same digest. -/
theorem claimC10_oddHexCollision (digest : List Nat → List Nat)
    (pre post : List HashArg) :
    (⟨0xabc, none⟩ : TypeSRP).val ≠ (⟨0xabd, none⟩ : TypeSRP).val ∧
    sha256hash digest (pre ++ .int ⟨0xabc, none⟩ :: post)
      = sha256hash digest (pre ++ .int ⟨0xabd, none⟩ :: post) := by
  refine ⟨by decide, ?_⟩
  have habs : absorbBytes (.int ⟨0xabc, none⟩) = absorbBytes (.int ⟨0xabd, none⟩) := by decide
  have hall : (pre ++ .int ⟨0xabc, none⟩ :: post).all argOk
      = (pre ++ .int ⟨0xabd, none⟩ :: post).all argOk := by
    simp [List.all_append, List.all_cons, argOk]
  have habsall : absorbAll (pre ++ .int ⟨0xabc, none⟩ :: post)
      = absorbAll (pre ++ .int ⟨0xabd, none⟩ :: post) := by
    rw [absorbAll_append, absorbAll_append, absorbAll_cons, absorbAll_cons, habs]
  rw [sha256hash, sha256hash, hall, hashVal, hashVal, habsall]

/-! ## C2: the hash contract -/

/-- The absorption rule as the spec words it (for comparison with
`absorbBytes`): each string as its UTF-8 bytes, each BigInt as the raw
bytes of its even-length hex encoding. -/
def absorbSpecBytes : HashArg → List Nat
  | .str s => utf8Bytes s
  | .int v =>
    let hx := v.toHex.data
    bufFromHex (if hx.length % 2 = 1 then '0' :: hx else hx)
  | .other => []

/-- Spec-side concatenated absorption. -/
def absorbSpecAll (args : List HashArg) : List Nat :=
  args.foldr (fun a acc => absorbSpecBytes a ++ acc) []

/-- Digest bytes read as a big-endian integer. -/
def beIntBytes (bs : List Nat) : Nat := bs.foldl (fun acc b => 256 * acc + b) 0

theorem intAtVal_hexDigitChar : ∀ d, d < 16 → intAtVal (hexDigitChar d) = some d := by decide

theorem hexDigitVal_hexDigitChar : ∀ d, d < 16 → hexDigitVal (hexDigitChar d) = some d := by
  decide

theorem hexDigitChar_ne_dash : ∀ d, d < 16 → hexDigitChar d ≠ '-' := by decide

theorem bytesToHex_cons (b : Nat) (bs : List Nat) :
    (bytesToHex (b :: bs)).data = byteHexChars b ++ (bytesToHex bs).data := rfl

theorem bytesToHex_length (bs : List Nat) :
    (bytesToHex bs).data.length = 2 * bs.length := by
  induction bs with
  | nil => rfl
  | cons b bs ih =>
    rw [bytesToHex_cons, List.length_append, ih, byteHexChars, List.length_cons]
    simp; omega

theorem parse_bytesToHex (bs : List Nat) (hb : ∀ b ∈ bs, b < 256) : ∀ acc : Nat,
    List.foldl (fun acc c => match intAtVal c with | some v => 16 * acc + v | none => acc) acc
        (bytesToHex bs).data
      = bs.foldl (fun acc b => 256 * acc + b) acc := by
  induction bs with
  | nil => intro acc; rfl
  | cons b bs ih =>
    intro acc
    have hblt : b < 256 := hb b (List.mem_cons_self _ _)
    have h1 : b / 16 % 16 = b / 16 := Nat.mod_eq_of_lt (by omega)
    have h2 : b / 16 < 16 := by omega
    have h3 : b % 16 < 16 := Nat.mod_lt _ (by norm_num)
    rw [bytesToHex_cons, List.foldl_append, byteHexChars]
    simp only [List.foldl_cons, List.foldl_nil, h1,
      intAtVal_hexDigitChar _ h2, intAtVal_hexDigitChar _ h3]
    have hacc : 16 * (16 * acc + b / 16) + b % 16 = 256 * acc + b := by omega
    rw [hacc, ih (fun x hx => hb x (List.mem_cons_of_mem _ hx))]

theorem bytesToHex_no_dash (bs : List Nat) : ∀ c ∈ (bytesToHex bs).data, c ≠ '-' := by
  induction bs with
  | nil => intro c hc; simp [bytesToHex] at hc
  | cons b bs ih =>
    intro c hc
    rw [bytesToHex_cons] at hc
    rcases List.mem_append.1 hc with h | h
    · rw [byteHexChars] at h
      have h3 : b % 16 < 16 := Nat.mod_lt _ (by norm_num)
      have h2 : b / 16 % 16 < 16 := Nat.mod_lt _ (by norm_num)
      simp only [List.mem_cons, List.mem_singleton, List.not_mem_nil, or_false] at h
      rcases h with h | h
      · exact h ▸ hexDigitChar_ne_dash _ h2
      · exact h ▸ hexDigitChar_ne_dash _ h3
    · exact ih c h

theorem fromHex_bytesToHex (bs : List Nat) (hb : ∀ b ∈ bs, b < 256) :
    TypeSRP.fromHex (bytesToHex bs) = ⟨Int.ofNat (beIntBytes bs), some (2 * bs.length)⟩ := by
  rw [TypeSRP.fromHex]
  have hneg : ((bytesToHex bs).data.find? fun c => c = '-' || (intAtVal c).isSome) ≠ some '-' := by
    intro h
    exact bytesToHex_no_dash bs '-' (List.mem_of_find?_eq_some h) rfl
  rw [if_neg hneg]
  congr 1
  · rw [parseHexNat, parse_bytesToHex bs hb 0, beIntBytes]
  · show some (bytesToHex bs).length = some (2 * bs.length)
    rw [String.length, bytesToHex_length]

/-- C2 (amended): `H` absorbs arguments in order — each string as its
UTF-8 bytes, each `TypeSRP` as `Buffer.from(to_hex(), 'hex')`, which
equals the raw bytes of the hex encoding whenever that encoding has
even length (an odd-length encoding loses its final digit — see C10);
the digest bytes are read as a big-endian integer with
`hex_width = 64 = 2 × 32`; and the hash fails with `BadArgumentKind`
exactly when some argument is neither a string nor a `TypeSRP`. -/
theorem claimC2_hash (digest : List Nat → List Nat) (args : List HashArg)
    (hlen : ∀ bs, (digest bs).length = 32)
    (hbyte : ∀ bs, ∀ b ∈ digest bs, b < 256) :
    (args.all argOk = true →
      sha256hash digest args
        = .ok ⟨Int.ofNat (beIntBytes (digest (absorbAll args))), some 64⟩) ∧
    (args.all argOk = false →
      sha256hash digest args = .error .badArgumentKind) ∧
    ((∀ v : TypeSRP, .int v ∈ args → (TypeSRP.toHex v).data.length % 2 = 0) →
      absorbAll args = absorbSpecAll args) := by
  refine ⟨?_, ?_, ?_⟩
  · intro hall
    rw [sha256hash, if_pos hall, hashVal,
      fromHex_bytesToHex _ (hbyte (absorbAll args)), hlen (absorbAll args)]
  · intro hall
    rw [sha256hash, if_neg (by simp [hall])]
  · intro heven
    induction args with
    | nil => rfl
    | cons a l ih =>
      rw [absorbAll_cons, absorbSpecAll,
        List.foldr_cons, ih (fun v hv => heven v (List.mem_cons_of_mem _ hv))]
      show absorbBytes a ++ absorbSpecAll l = absorbSpecBytes a ++ absorbSpecAll l
      congr 1
      cases a with
      | str s => rfl
      | other => rfl
      | int v =>
        have hv := heven v (List.mem_cons_self _ _)
        rw [absorbBytes, absorbSpecBytes, if_neg (by omega)]

/-- C2 witness: the theorem applied to a digest returning 32 zero
bytes and the argument list `[str "u", int ⟨0xab, width 2⟩]`. -/
theorem claimC2_hash_witness :
    (([HashArg.str "u", .int ⟨0xab, some 2⟩].all argOk = true →
      sha256hash (fun _ => List.replicate 32 0) [HashArg.str "u", .int ⟨0xab, some 2⟩]
        = .ok ⟨Int.ofNat (beIntBytes ((fun (_ : List Nat) => List.replicate 32 0)
            (absorbAll [HashArg.str "u", .int ⟨0xab, some 2⟩]))), some 64⟩) ∧
    ([HashArg.str "u", .int ⟨0xab, some 2⟩].all argOk = false →
      sha256hash (fun _ => List.replicate 32 0) [HashArg.str "u", .int ⟨0xab, some 2⟩]
        = .error .badArgumentKind) ∧
    ((∀ v : TypeSRP, .int v ∈ [HashArg.str "u", .int ⟨0xab, some 2⟩]
        → (TypeSRP.toHex v).data.length % 2 = 0) →
      absorbAll [HashArg.str "u", .int ⟨0xab, some 2⟩]
        = absorbSpecAll [HashArg.str "u", .int ⟨0xab, some 2⟩])) :=
  claimC2_hash (fun _ => List.replicate 32 0) [HashArg.str "u", .int ⟨0xab, some 2⟩]
    (fun _ => by simp)
    (fun bs b hb => by rw [List.eq_of_mem_replicate hb]; norm_num)

/-- C2 counterexample to the claim as stated: the `TypeSRP` value
`0xabc` with no recorded width has hex encoding `"abc"`; `H` absorbs
it as the single byte `0xab`, not as the raw bytes `[0x0a, 0xbc]` of
its even-length hex encoding. -/
theorem claimC2_counterexample :
    absorbBytes (.int ⟨0xabc, none⟩) ≠ absorbSpecBytes (.int ⟨0xabc, none⟩) := by
  decide

/-! ## C7: `from_hex` / `to_hex` round trip -/

theorem charOfNat_toNat (c : Char) : Char.ofNat c.toNat = c := by
  rcases c with ⟨⟨bv⟩, hvalid⟩
  have h : (UInt32.mk bv).toNat.isValidChar := hvalid
  simp only [Char.toNat] at *
  rw [Char.ofNat, dif_pos h]
  rfl

theorem asciiLower_of_hexDigitVal (c : Char) (v : Nat) (h : hexDigitVal c = some v) :
    v < 16 ∧ asciiLower c = hexDigitChar v := by
  simp only [hexDigitVal] at h
  rw [asciiLower, hexDigitChar]
  split_ifs at h with h1 h2 h3
  · have hv : c.toNat - 48 = v := Option.some.inj h
    have hvlt : v < 16 := by omega
    refine ⟨hvlt, ?_⟩
    rw [if_neg (by omega), if_pos (by omega)]
    have he : 48 + v = c.toNat := by omega
    rw [he, charOfNat_toNat]
  · have hv : c.toNat - 87 = v := Option.some.inj h
    have hvlt : v < 16 := by omega
    refine ⟨hvlt, ?_⟩
    rw [if_neg (by omega), if_neg (by omega)]
    have he : 87 + v = c.toNat := by omega
    rw [he, charOfNat_toNat]
  · have hv : c.toNat - 55 = v := Option.some.inj h
    have hvlt : v < 16 := by omega
    refine ⟨hvlt, ?_⟩
    rw [if_pos (by omega), if_neg (by omega)]
    congr 1
    omega

theorem intAtVal_of_hexDigitVal (c : Char) (v : Nat) (h : hexDigitVal c = some v) :
    intAtVal c = some v := by
  simp only [hexDigitVal] at h
  simp only [intAtVal]
  split_ifs at h ⊢ <;> first | omega | simp_all

theorem hexMinAux_eq_digits (f : Nat) : ∀ n, n < f →
    hexMinAux f n = ((Nat.digits 16 n).map hexDigitChar).reverse := by
  induction f with
  | zero => intro n h; omega
  | succ f ih =>
    intro n h
    rw [hexMinAux]
    by_cases h0 : n = 0
    · subst h0; simp
    · rw [if_neg h0, Nat.digits_def' (by norm_num : (1:Nat) < 16) (Nat.pos_of_ne_zero h0)]
      simp only [List.map_cons, List.reverse_cons]
      have hlt : n / 16 < f := by
        have := Nat.div_lt_self (Nat.pos_of_ne_zero h0) (by norm_num : 1 < 16)
        omega
      rw [ih (n / 16) hlt]

theorem natHexMin_eq_digits (n : Nat) (h : n ≠ 0) :
    natHexMin n = ((Nat.digits 16 n).map hexDigitChar).reverse := by
  rw [natHexMin, if_neg h]
  exact hexMinAux_eq_digits (n + 1) n (Nat.lt_succ_self n)

theorem natHexMin_single (v : Nat) (h1 : 1 ≤ v) (h16 : v < 16) :
    natHexMin v = [hexDigitChar v] := by
  rw [natHexMin_eq_digits v (by omega), Nat.digits_of_lt 16 v (by omega) h16]
  rfl

theorem natHexMin_step (n v : Nat) (hn : 1 ≤ n) (hv : v < 16) :
    natHexMin (16 * n + v) = natHexMin n ++ [hexDigitChar v] := by
  have hm : 16 * n + v ≠ 0 := by omega
  rw [natHexMin_eq_digits _ hm,
    Nat.digits_def' (by norm_num : (1:Nat) < 16) (by omega),
    natHexMin_eq_digits n (by omega)]
  have h1 : (16 * n + v) % 16 = v := by omega
  have h2 : (16 * n + v) / 16 = n := by omega
  rw [h1, h2, List.map_cons, List.reverse_cons]

theorem parse_concat (cs : List Char) (c : Char) (v : Nat) (h : intAtVal c = some v) :
    parseHexNat (cs ++ [c]) = 16 * parseHexNat cs + v := by
  rw [parseHexNat, List.foldl_append]
  simp [parseHexNat, h]

theorem padStart_concat (x : List Char) (y : Char) (w : Nat) :
    padStartList (x ++ [y]) (w + 1) = padStartList x w ++ [y] := by
  rw [padStartList, padStartList, List.length_append, List.length_singleton]
  have h : w + 1 - (x.length + 1) = w - x.length := by omega
  rw [h, List.append_assoc]

theorem natHexMin_single' (v : Nat) (hvlt : v < 16) : natHexMin v = [hexDigitChar v] := by
  by_cases hv0 : v = 0
  · subst hv0; decide
  · exact natHexMin_single v (by omega) hvlt

theorem roundtrip_core (cs : List Char) : cs ≠ [] →
    (∀ c ∈ cs, (hexDigitVal c).isSome) →
    padStartList (natHexMin (parseHexNat cs)) cs.length = cs.map asciiLower := by
  induction cs using List.reverseRecOn with
  | nil => intro h; exact absurd rfl h
  | append_singleton cs c ih =>
    intro _ hhex
    obtain ⟨v, hv⟩ : ∃ v, hexDigitVal c = some v := by
      have hs := hhex c (by simp)
      cases hcv : hexDigitVal c
      · rw [hcv] at hs; simp at hs
      · exact ⟨_, rfl⟩
    obtain ⟨hvlt, hlow⟩ := asciiLower_of_hexDigitVal c v hv
    have hparse := parse_concat cs c v (intAtVal_of_hexDigitVal c v hv)
    rw [hparse, List.map_append, List.map_singleton, hlow, List.length_append,
      List.length_singleton]
    by_cases hnil : cs = []
    · subst hnil
      show padStartList (natHexMin (16 * parseHexNat [] + v)) 1 = [hexDigitChar v]
      have h0 : parseHexNat [] = 0 := rfl
      rw [h0, Nat.mul_zero, Nat.zero_add, natHexMin_single' v hvlt]
      rfl
    · have ihh := ih hnil (fun x hx => hhex x (List.mem_append_left _ hx))
      by_cases hn0 : parseHexNat cs = 0
      · rw [hn0, Nat.mul_zero, Nat.zero_add, natHexMin_single' v hvlt]
        rw [hn0] at ihh
        have hmin0 : natHexMin 0 = ['0'] := rfl
        rw [hmin0, padStartList, List.length_singleton] at ihh
        have hlen1 : 1 ≤ cs.length := by
          cases cs
          · exact absurd rfl hnil
          · simp
        have hrep : List.replicate (cs.length - 1) '0' ++ ['0']
            = List.replicate cs.length '0' := by
          have hc : cs.length = (cs.length - 1) + 1 := by omega
          rw [hc, List.replicate_succ']
          simp
        rw [hrep] at ihh
        rw [padStartList, List.length_singleton, ← ihh]
        have hc : cs.length + 1 - 1 = cs.length := by omega
        rw [hc]
      · have hn1 : 1 ≤ parseHexNat cs := by omega
        rw [natHexMin_step _ v hn1 hvlt, padStart_concat, ihh]

/-- C7 (amended): for every NONEMPTY even-length hex string `s`,
`from_hex(s).to_hex()` is the lowercase of `s`, leading zeros being
restored by the recorded `hex_width = len(s)`.  (The empty string is
even-length and vacuously hex but round-trips to `"0"` — see the
counterexample.) -/
theorem claimC7_roundtrip (s : String) (hne : s.data ≠ [])
    (hhex : ∀ c ∈ s.data, (hexDigitVal c).isSome)
    (_heven : s.data.length % 2 = 0) :
    (TypeSRP.fromHex s).toHex = strLower s := by
  rw [TypeSRP.fromHex]
  have hneg : (s.data.find? fun c => c = '-' || (intAtVal c).isSome) ≠ some '-' := by
    intro h
    have hmem := List.mem_of_find?_eq_some h
    have hsome := hhex '-' hmem
    have hnone : hexDigitVal '-' = none := by decide
    rw [hnone] at hsome
    simp at hsome
  rw [if_neg hneg, TypeSRP.toHex]
  have h1 : ¬ (Int.ofNat (parseHexNat s.data) < 0) := Int.not_lt.2 (Int.ofNat_nonneg _)
  simp only [if_neg h1, Int.toNat_ofNat]
  rw [strLower]
  show String.mk (padStartList (natHexMin (parseHexNat s.data)) s.length)
      = String.mk (s.data.map asciiLower)
  exact congrArg String.mk (roundtrip_core s.data hne hhex)

/-- C7 witness: the theorem applied at `s = "0A"`. -/
theorem claimC7_roundtrip_witness : (TypeSRP.fromHex "0A").toHex = strLower "0A" :=
  claimC7_roundtrip "0A" (by decide) (by decide) (by decide)

/-- C7 counterexample to the claim as stated: the empty string is an
even-length string of hex digits (vacuously), yet
`from_hex("").to_hex()` is `"0"`, not `""`. -/
theorem claimC7_counterexample :
    ("" : String).data.length % 2 = 0 ∧
    (∀ c ∈ ("" : String).data, (hexDigitVal c).isSome) ∧
    (TypeSRP.fromHex "").toHex ≠ strLower "" :=
  ⟨by decide, by decide, by decide⟩

/-! ## C9: `toUint8Array` -/

/-- Bit length of a natural number, `ceil(log2(n+1))`; `bitlen(0) = 0`. -/
def bitLen (n : Nat) : Nat := if n = 0 then 0 else Nat.log 2 n + 1

theorem pairBytes_foldl : ∀ cs : List Char,
    (∀ c ∈ cs, (hexDigitVal c).isSome) → cs.length % 2 = 0 → ∀ acc : Nat,
    (pairBytes cs).foldl (fun a b => 256 * a + b) acc
      = cs.foldl (fun acc c => match intAtVal c with | some v => 16 * acc + v | none => acc) acc
  | [] => fun _ _ _ => rfl
  | [c] => fun _ he => by simp at he
  | c1 :: c2 :: rest => fun hhex he acc => by
    obtain ⟨v1, hv1⟩ : ∃ v, hexDigitVal c1 = some v := by
      have hs := hhex c1 (by simp)
      cases hcv : hexDigitVal c1
      · rw [hcv] at hs; simp at hs
      · exact ⟨_, rfl⟩
    obtain ⟨v2, hv2⟩ : ∃ v, hexDigitVal c2 = some v := by
      have hs := hhex c2 (by simp)
      cases hcv : hexDigitVal c2
      · rw [hcv] at hs; simp at hs
      · exact ⟨_, rfl⟩
    have hrest : ∀ c ∈ rest, (hexDigitVal c).isSome := fun c hc =>
      hhex c (by simp [hc])
    have herest : rest.length % 2 = 0 := by simp [List.length_cons] at he; omega
    show ((pairByte c1 c2 :: pairBytes rest).foldl (fun a b => 256 * a + b) acc) = _
    rw [List.foldl_cons, List.foldl_cons, List.foldl_cons,
      intAtVal_of_hexDigitVal c1 v1 hv1, intAtVal_of_hexDigitVal c2 v2 hv2]
    have hpb : pairByte c1 c2 = 16 * v1 + v2 := by rw [pairByte, hv1, hv2]
    rw [hpb, pairBytes_foldl rest hrest herest]
    have hacc : 256 * acc + (16 * v1 + v2) = 16 * (16 * acc + v1) + v2 := by omega
    rw [hacc]

theorem pairBytes_length : ∀ cs : List Char, cs.length % 2 = 0 →
    (pairBytes cs).length = cs.length / 2
  | [] => fun _ => rfl
  | [c] => fun h => by simp at h
  | c1 :: c2 :: rest => fun h => by
    show (pairByte c1 c2 :: pairBytes rest).length = (c1 :: c2 :: rest).length / 2
    rw [List.length_cons, pairBytes_length rest (by simp [List.length_cons] at h; omega)]
    simp only [List.length_cons]
    omega

theorem digits_hex_lt (n : Nat) : ∀ d ∈ Nat.digits 16 n, d < 16 := fun d hd =>
  Nat.digits_lt_base (by norm_num) hd

theorem natHexMin_all_hex (n : Nat) : ∀ c ∈ natHexMin n, (hexDigitVal c).isSome := by
  by_cases h0 : n = 0
  · subst h0; decide
  · rw [natHexMin_eq_digits n h0]
    intro c hc
    rw [List.mem_reverse, List.mem_map] at hc
    obtain ⟨d, hd, rfl⟩ := hc
    rw [hexDigitVal_hexDigitChar d (digits_hex_lt n d hd)]
    rfl

theorem parse_map_digits : ∀ ds : List Nat, (∀ d ∈ ds, d < 16) →
    parseHexNat ((ds.map hexDigitChar).reverse) = Nat.ofDigits 16 ds := by
  intro ds
  induction ds with
  | nil => intro _; rfl
  | cons d ds ih =>
    intro hlt
    rw [List.map_cons, List.reverse_cons,
      parse_concat _ _ d (intAtVal_hexDigitChar d (hlt d (by simp))),
      ih (fun x hx => hlt x (by simp [hx])), Nat.ofDigits_cons]
    omega

theorem parse_natHexMin (n : Nat) : parseHexNat (natHexMin n) = n := by
  by_cases h0 : n = 0
  · subst h0; rfl
  · rw [natHexMin_eq_digits n h0, parse_map_digits _ (digits_hex_lt n),
      Nat.ofDigits_digits]

theorem natHexMin_length (n : Nat) (h0 : n ≠ 0) :
    (natHexMin n).length = Nat.log 16 n + 1 := by
  rw [natHexMin_eq_digits n h0, List.length_reverse, List.length_map,
    Nat.digits_len 16 n (by norm_num) h0]

theorem log16_eq_log2_div4 (n : Nat) (h0 : n ≠ 0) :
    Nat.log 16 n = Nat.log 2 n / 4 := by
  have h16 : (16:Nat) = 2 ^ 4 := by norm_num
  apply Nat.log_eq_of_pow_le_of_lt_pow
  · rw [h16, ← pow_mul]
    calc 2 ^ (4 * (Nat.log 2 n / 4)) ≤ 2 ^ Nat.log 2 n :=
          Nat.pow_le_pow_right (by norm_num) (by omega)
      _ ≤ n := Nat.pow_log_le_self 2 h0
  · rw [h16, ← pow_mul]
    calc n < 2 ^ (Nat.log 2 n + 1) := Nat.lt_pow_succ_log_self (by norm_num) n
      _ ≤ 2 ^ (4 * (Nat.log 2 n / 4 + 1)) :=
          Nat.pow_le_pow_right (by norm_num) (by omega)

theorem parse_cons_zero (cs : List Char) : parseHexNat ('0' :: cs) = parseHexNat cs := rfl

/-- C9 (amended): for every non-negative `TypeSRP` value, `to_bytes()`
returns the raw big-endian bytes of the even-length-padded minimal hex
encoding of the value (so the bytes read back, big-endian, as the
value itself), and the byte length is `ceil(bitlen/8)` for nonzero
values but `1` — a single zero byte — for ZERO. -/
theorem claimC9_toUint8Array (v : TypeSRP) (hv : 0 ≤ v.val) :
    v.toUint8Array
        = pairBytes (if (natHexMin v.val.toNat).length % 2 = 1
            then '0' :: natHexMin v.val.toNat else natHexMin v.val.toNat) ∧
    beIntBytes v.toUint8Array = v.val.toNat ∧
    v.toUint8Array.length
      = (if v.val.toNat = 0 then 1 else (bitLen v.val.toNat + 7) / 8) := by
  have hnl : ¬ (v.val < 0) := not_lt.2 hv
  have h1 : v.toUint8Array
      = pairBytes (if (natHexMin v.val.toNat).length % 2 = 1
          then '0' :: natHexMin v.val.toNat else natHexMin v.val.toNat) := by
    rw [TypeSRP.toUint8Array, if_neg hnl]
  refine ⟨h1, ?_, ?_⟩ <;> rw [h1]
  · set n := v.val.toNat with hn
    have hhex2 : ∀ c ∈ (if (natHexMin n).length % 2 = 1
        then '0' :: natHexMin n else natHexMin n), (hexDigitVal c).isSome := by
      intro c hc
      split at hc
      · rcases List.mem_cons.1 hc with h | h
        · subst h; decide
        · exact natHexMin_all_hex n c h
      · exact natHexMin_all_hex n c hc
    have hev : (if (natHexMin n).length % 2 = 1
        then '0' :: natHexMin n else natHexMin n).length % 2 = 0 := by
      split
      · rw [List.length_cons]; omega
      · omega
    rw [beIntBytes, pairBytes_foldl _ hhex2 hev 0]
    split
    · rw [show ('0' :: natHexMin n).foldl
          (fun acc c => match intAtVal c with | some v => 16 * acc + v | none => acc) 0
          = parseHexNat ('0' :: natHexMin n) from rfl,
        parse_cons_zero, parse_natHexMin]
    · rw [show (natHexMin n).foldl
          (fun acc c => match intAtVal c with | some v => 16 * acc + v | none => acc) 0
          = parseHexNat (natHexMin n) from rfl, parse_natHexMin]
  · set n := v.val.toNat with hn
    have hev : (if (natHexMin n).length % 2 = 1
        then '0' :: natHexMin n else natHexMin n).length % 2 = 0 := by
      split
      · rw [List.length_cons]; omega
      · omega
    rw [pairBytes_length _ hev]
    by_cases h0 : n = 0
    · rw [h0]; decide
    · rw [if_neg h0, bitLen, if_neg h0]
      have hL := natHexMin_length n h0
      have hlog := log16_eq_log2_div4 n h0
      rw [apply_ite List.length, List.length_cons, hL]
      split <;> omega

/-- C9 witness: the theorem applied at the value `0xabc` (recorded
width 4): bytes `[0x0a, 0xbc]`, length `2 = ceil(12/8)`. -/
theorem claimC9_toUint8Array_witness :
    (TypeSRP.mk 0xabc (some 4)).toUint8Array
        = pairBytes (if (natHexMin (TypeSRP.mk 0xabc (some 4)).val.toNat).length % 2 = 1
            then '0' :: natHexMin (TypeSRP.mk 0xabc (some 4)).val.toNat
            else natHexMin (TypeSRP.mk 0xabc (some 4)).val.toNat) ∧
    beIntBytes (TypeSRP.mk 0xabc (some 4)).toUint8Array
        = (TypeSRP.mk 0xabc (some 4)).val.toNat ∧
    (TypeSRP.mk 0xabc (some 4)).toUint8Array.length
      = (if (TypeSRP.mk 0xabc (some 4)).val.toNat = 0 then 1
         else (bitLen (TypeSRP.mk 0xabc (some 4)).val.toNat + 7) / 8) :=
  claimC9_toUint8Array (TypeSRP.mk 0xabc (some 4)) (by norm_num)

/-- C9 counterexample to the claim as stated: `to_bytes` of ZERO has
length 1 (the single byte `0x00`), not 0. -/
theorem claimC9_counterexample : TypeSRP.ZERO.toUint8Array.length ≠ 0 := by decide
